import Mathlib

/-!
Verification of the draw engine and auth/codec utilities of the
as-backend repository (services/event.ts `draw`, services/people.ts
`updatePeople`, services/auth.ts, utils/match, utils/getCurrentDate).

The draw engine (services/event.ts, `draw`) is embedded as a pure
function over an explicit roster, an explicit randomness stream
`rng : Nat → Nat` (each call to Math.random() consumes one stream value;
Math.floor(Math.random() * len) is modelled as `rng t % len`, which
ranges over exactly the same values), an explicit persistence oracle
`writeOk` telling whether each updatePeople write succeeds, and a fuel
bound for the unbounded inner resample while-loop (fuel exhaustion is
reported as the error `DrawErr.noFuel`; a run that diverges in the
source returns `noFuel` for every fuel).
-/

/-- A row of the EventPeople table as the draw engine sees it:
`id` (primary key) and `groupId` (non-null Int in schema.prisma). -/
structure EventPerson where
  id : Nat
  groupId : Nat
deriving DecidableEq, Repr

/-- One entry of the `sortedList` built by `draw`:
`{ id: peopleList[i].id, match: sortableFiltered[sortedIndex] }`.
The source field `match` is a Lean keyword, rendered `matchId`. -/
structure Pairing where
  id : Nat
  matchId : Nat
deriving DecidableEq, Repr

/-- The mutable locals of one attempt of `draw`:
`sortedList`, `sortable`, `keepTrying`, plus the position `t` of the
randomness stream (global across attempts). -/
structure AttemptState where
  sortedList : List Pairing
  sortable : List Nat
  keepTrying : Bool
  t : Nat
deriving DecidableEq, Repr

/-- Abnormal terminations of the embedded `draw`:
`typeError` is the JavaScript TypeError raised by reading `.id` of the
undefined `peopleList[1]` (line 160) on a roster of size < 2;
`noFuel` means the inner resample while-loop (lines 168-170) did not
finish within the given fuel. -/
inductive DrawErr where
  | typeError
  | noFuel
deriving DecidableEq, Repr

/-- Observable outcome of a completed `draw` run: the returned boolean,
the pairings it persisted (empty on the `return false` paths, where the
source never reads `sortedList` again), and the `updatePeople` calls
issued, each recorded as (person id, stored `matched` token, result
reported by updatePeople).  The source ignores that result. -/
structure DrawOutcome where
  result : Bool
  pairs : List Pairing
  writes : List (Nat × String × Bool)
deriving DecidableEq, Repr

/-- Modelled from the spec: letter for one decimal digit.  The codec
file src/utils/match is not present in the sources (only its caller
services/event.ts is); per spec section 4.1 the codec is any reversible
structured encoding that is not a plain stringified integer.  We model
it as little-endian decimal digits written as the letters a..j. -/
def encChar : Nat → Char
  | 0 => 'a'
  | 1 => 'b'
  | 2 => 'c'
  | 3 => 'd'
  | 4 => 'e'
  | 5 => 'f'
  | 6 => 'g'
  | 7 => 'h'
  | 8 => 'i'
  | _ => 'j'

/-- Modelled from the spec: inverse of `encChar`; any character outside
a..j is malformed and decodes to `none` (spec: decode must fail on
garbage, never fabricate an id). -/
def decChar (c : Char) : Option Nat :=
  if c = 'a' then some 0
  else if c = 'b' then some 1
  else if c = 'c' then some 2
  else if c = 'd' then some 3
  else if c = 'e' then some 4
  else if c = 'f' then some 5
  else if c = 'g' then some 6
  else if c = 'h' then some 7
  else if c = 'i' then some 8
  else if c = 'j' then some 9
  else none

/-- Decode a whole character list; any malformed character poisons the
result. -/
def decChars : List Char → Option (List Nat)
  | [] => some []
  | c :: cs =>
    match decChar c, decChars cs with
    | some d, some ds => some (d :: ds)
    | _, _ => none

/-- Little-endian base-10 digits of `n`, with structural fuel
(`digitsAux n n` always has enough fuel since n / 10 < n). -/
def digitsAux : Nat → Nat → List Nat
  | _, 0 => []
  | 0, Nat.succ _ => []
  | Nat.succ fuel, Nat.succ n => (Nat.succ n % 10) :: digitsAux fuel (Nat.succ n / 10)

/-- Little-endian base-10 digits of `n` (empty for 0). -/
def natDigits (n : Nat) : List Nat := digitsAux n n

/-- Value of a little-endian digit list. -/
def natOfDigits : List Nat → Nat
  | [] => 0
  | d :: ds => d + 10 * natOfDigits ds

/-- Modelled from the spec: `encrypt` of src/utils/match (missing from
the sources), the codec `encode` used by `draw` at line 195 to store
each recipient id in the `matched` column. -/
def encrypt (x : Nat) : String := String.mk ((natDigits x).map encChar)

/-- Modelled from the spec: `decrypt` of src/utils/match (missing from
the sources); fails with `none` (DecodeError) on malformed tokens. -/
def decrypt (s : String) : Option Nat :=
  match decChars s.data with
  | some ds => some (natOfDigits ds)
  | none => none

/-- Lines 148-156 of services/event.ts: the eligible candidates for the
current person `p`.  If the event is grouped, keep only pool ids whose
first matching person (Array.prototype.find) has a different groupId;
an id with no matching person compares `groupId !== undefined`, true. -/
def sortableFilteredOf (grouped : Bool) (peopleList : List EventPerson)
    (p : EventPerson) (sortable : List Nat) : List Nat :=
  if grouped then
    sortable.filter (fun sortableItem =>
      match peopleList.find? (fun item => item.id == sortableItem) with
      | some sortablePerson => p.groupId != sortablePerson.groupId
      | none => true)
  else sortable

/-- Lines 165-170 of services/event.ts: pick a random index, then
re-pick while the candidate equals the current person id.  Each pick
consumes one randomness-stream value; `none` means the loop did not
finish within `fuel` iterations. -/
def resample (sortableFiltered : List Nat) (selfId : Nat) (rng : Nat → Nat) :
    Nat → Nat → Option (Nat × Nat)
  | 0, _ => none
  | Nat.succ fuel, t =>
    let sortedIndex := rng t % sortableFiltered.length
    let cand := sortableFiltered.getD sortedIndex 0
    if cand == selfId then resample sortableFiltered selfId rng fuel (t + 1)
    else some (cand, t + 1)

/-- Lines 173-179 of services/event.ts: push the pair onto `sortedList`
and remove every occurrence of the picked id from `sortable`. -/
def pushMatch (st : AttemptState) (p : EventPerson) (cand : Nat) (t2 : Nat) :
    AttemptState :=
  { sortedList := st.sortedList ++ [{ id := p.id, matchId := cand }],
    sortable := st.sortable.filter (fun item => item != cand),
    keepTrying := st.keepTrying,
    t := t2 }

/-- The pick-then-push else-branch (lines 162-181). -/
def pickMatch (sortableFiltered : List Nat) (rng : Nat → Nat) (fuel : Nat)
    (st : AttemptState) (p : EventPerson) : Except DrawErr AttemptState :=
  match resample sortableFiltered p.id rng fuel st.t with
  | none => Except.error DrawErr.noFuel
  | some (cand, t2) => Except.ok (pushMatch st p cand t2)

/-- One iteration of `for (let i in peopleList)` (lines 145-183).  The
guard (lines 159-161) reads, verbatim from the source,
`sortableFiltered.length === 0 || (sortableFiltered.length === 1 &&
peopleList[1].id === sortableFiltered[0])`: note the literal index 1;
when `peopleList[1]` is undefined the `.id` access raises a TypeError. -/
def stepPerson (grouped : Bool) (peopleList : List EventPerson) (rng : Nat → Nat)
    (fuel : Nat) (st : AttemptState) (p : EventPerson) : Except DrawErr AttemptState :=
  let sortableFiltered := sortableFilteredOf grouped peopleList p st.sortable
  if sortableFiltered.length == 0 then
    Except.ok { st with keepTrying := true }
  else if sortableFiltered.length == 1 then
    match peopleList.get? 1 with
    | none => Except.error DrawErr.typeError
    | some p1 =>
      if p1.id == sortableFiltered.getD 0 0 then
        Except.ok { st with keepTrying := true }
      else pickMatch sortableFiltered rng fuel st p
  else pickMatch sortableFiltered rng fuel st p

/-- The whole inner for-loop over the roster. -/
def attemptLoop (grouped : Bool) (peopleList : List EventPerson) (rng : Nat → Nat)
    (fuel : Nat) : List EventPerson → AttemptState → Except DrawErr AttemptState
  | [], st => Except.ok st
  | p :: rest, st =>
    match stepPerson grouped peopleList rng fuel st p with
    | Except.error e => Except.error e
    | Except.ok st2 => attemptLoop grouped peopleList rng fuel rest st2

/-- One attempt (lines 139-183): reset `keepTrying`, clear `sortedList`,
refill `sortable` with all roster ids, then run the for-loop.  `t0` is
the randomness-stream position at the start of the attempt. -/
def runAttempt (grouped : Bool) (peopleList : List EventPerson) (rng : Nat → Nat)
    (fuel : Nat) (t0 : Nat) : Except DrawErr AttemptState :=
  attemptLoop grouped peopleList rng fuel peopleList
    { sortedList := [],
      sortable := peopleList.map (fun person => person.id),
      keepTrying := false,
      t := t0 }

/-- The outer `while (keepTrying && attempts < maxAttempts)` loop
(line 137).  `rem` is structural fuel kept equal to
`maxAttempts - attempts`, so `rem = 0` is exactly the exit condition
`attempts ≥ maxAttempts`; `attempts` itself is threaded literally and
incremented once per attempt, as in the source.  Returns the final
values of `attempts`, `keepTrying` and `sortedList`. -/
def drawLoop (grouped : Bool) (peopleList : List EventPerson) (rng : Nat → Nat)
    (fuel : Nat) : Nat → Nat → Bool → Nat → List Pairing →
    Except DrawErr (Nat × Bool × List Pairing)
  | 0, attempts, keepTrying, _t, sortedList =>
    Except.ok (attempts, keepTrying, sortedList)
  | Nat.succ rem, attempts, keepTrying, t, sortedList =>
    if keepTrying then
      match runAttempt grouped peopleList rng fuel t with
      | Except.error e => Except.error e
      | Except.ok st =>
        drawLoop grouped peopleList rng fuel rem (attempts + 1)
          st.keepTrying st.t st.sortedList
    else Except.ok (attempts, keepTrying, sortedList)

/-- services/event.ts `draw` (lines 110-208).  `event` is the result of
the event fetch (`none` = event not found; `some grouped` = its
`grouped` flag); `peopleList` is the roster fetch result (findMany
returns an array, which is always truthy, so there is no empty-roster
early exit).  `maxAttempts = peopleList.length`; the loop starts with
`attempts = 0`, `keepTrying = true`, stream position 0 and an empty
`sortedList`.  After the loop, matches are persisted and `true`
returned only under `attempts < maxAttempts` (line 188); each persisted
pair calls updatePeople with `matched := encrypt match`, whose
success/failure is reported by the oracle `writeOk` and ignored by the
source (services/people.ts updatePeople returns false on error, and
line 192 discards the awaited value). -/
def draw (event : Option Bool) (peopleList : List EventPerson) (rng : Nat → Nat)
    (writeOk : Nat → String → Bool) (fuel : Nat) : Except DrawErr DrawOutcome :=
  match event with
  | none => Except.ok { result := false, pairs := [], writes := [] }
  | some grouped =>
    let maxAttempts := peopleList.length
    match drawLoop grouped peopleList rng fuel maxAttempts 0 true 0 [] with
    | Except.error e => Except.error e
    | Except.ok (attempts, _keepTrying, sortedList) =>
      if attempts < maxAttempts then
        Except.ok
          { result := true
            pairs := sortedList
            writes := sortedList.map (fun pr =>
              (pr.id, encrypt pr.matchId, writeOk pr.id (encrypt pr.matchId))) }
      else Except.ok { result := false, pairs := [], writes := [] }

/-- services/auth.ts line `getCurrentDate().split("/").join("")`:
remove every slash from the date string. -/
def removeSlashes (s : String) : String := String.join (s.splitOn "/")

/-- services/auth.ts `validatePassword`.  Modelled from the spec:
`getCurrentDate` (src/utils/getCurrentDate is not present in the
sources) returns the current date as a "DD/MM/YYYY" string; it is
passed in as the `currentDate` argument. -/
def validatePassword (currentDate password : String) : Bool :=
  password == removeSlashes currentDate

/-- services/auth.ts `createToken`: DEFAULT_TOKEN followed by the
current date with slashes removed.  `defaultToken` stands for the
string value of `process.env.DEFAULT_TOKEN`. -/
def createToken (defaultToken currentDate : String) : String :=
  defaultToken ++ removeSlashes currentDate

/-- services/auth.ts `validadeToken` (name as in the source): the
presented token must equal `createToken()`. -/
def validadeToken (defaultToken currentDate token : String) : Bool :=
  token == createToken defaultToken currentDate

/-- The group-exclusion property of one pairing with respect to a
roster: any roster member carrying the `from` id and any roster member
carrying the `to` id are in different groups. -/
def GroupOk (peopleList : List EventPerson) (pr : Pairing) : Prop :=
  ∀ pf ∈ peopleList, pf.id = pr.id →
    ∀ pm ∈ peopleList, pm.id = pr.matchId → pf.groupId ≠ pm.groupId

/-! ## Helper lemmas -/

theorem getD_mem (l : List Nat) (n d : Nat) (h : n < l.length) : l.getD n d ∈ l := by
  induction l generalizing n with
  | nil => simp at h
  | cons a t ih =>
    cases n with
    | zero => simp [List.getD]
    | succ m =>
      have := ih m (by simpa using h)
      simp only [List.getD] at this ⊢
      simpa using Or.inr this

theorem resample_spec (sf : List Nat) (selfId : Nat) (rng : Nat → Nat)
    (hlen : 0 < sf.length) :
    ∀ fuel t cand t2, resample sf selfId rng fuel t = some (cand, t2) →
      cand ∈ sf ∧ cand ≠ selfId := by
  intro fuel
  induction fuel with
  | zero => intro t cand t2 h; simp [resample] at h
  | succ m ih =>
    intro t cand t2 h
    simp only [resample] at h
    split at h
    · exact ih (t + 1) cand t2 h
    · rename_i hne
      have hmem : sf.getD (rng t % sf.length) 0 ∈ sf :=
        getD_mem sf _ 0 (Nat.mod_lt _ hlen)
      have hcc : cand = sf.getD (rng t % sf.length) 0 := by
        cases h; rfl
      subst hcc
      exact ⟨hmem, by simpa using hne⟩

theorem resample_self (i : Nat) (rng : Nat → Nat) :
    ∀ fuel t, resample [i] i rng fuel t = none := by
  intro fuel
  induction fuel with
  | zero => intro t; rfl
  | succ m ih => intro t; simp [resample, Nat.mod_one, ih]

theorem sortableFilteredOf_subset (grouped : Bool) (peopleList : List EventPerson)
    (p : EventPerson) (sortable : List Nat) :
    ∀ x ∈ sortableFilteredOf grouped peopleList p sortable, x ∈ sortable := by
  intro x hx
  unfold sortableFilteredOf at hx
  split at hx
  · exact List.mem_of_mem_filter hx
  · exact hx

theorem stepPerson_cases (grouped : Bool) (peopleList : List EventPerson)
    (rng : Nat → Nat) (fuel : Nat) (st st2 : AttemptState) (p : EventPerson)
    (h : stepPerson grouped peopleList rng fuel st p = Except.ok st2) :
    st2 = { st with keepTrying := true } ∨
    ∃ cand t2, cand ∈ sortableFilteredOf grouped peopleList p st.sortable ∧
      cand ≠ p.id ∧ st2 = pushMatch st p cand t2 := by
  have hpick : 0 < (sortableFilteredOf grouped peopleList p st.sortable).length →
      pickMatch (sortableFilteredOf grouped peopleList p st.sortable) rng fuel st p =
        Except.ok st2 →
      ∃ cand t2, cand ∈ sortableFilteredOf grouped peopleList p st.sortable ∧
        cand ≠ p.id ∧ st2 = pushMatch st p cand t2 := by
    intro hlen hp
    unfold pickMatch at hp
    split at hp
    · cases hp
    · rename_i cand t2 hr
      have := resample_spec _ _ _ hlen fuel st.t cand t2 hr
      cases hp
      exact ⟨cand, t2, this.1, this.2, rfl⟩
  simp only [stepPerson] at h
  by_cases hz : (sortableFilteredOf grouped peopleList p st.sortable).length = 0
  · rw [if_pos (by simp [hz] :
      ((sortableFilteredOf grouped peopleList p st.sortable).length == 0) = true)] at h
    left; cases h; rfl
  · rw [if_neg (by simp [hz] :
      ¬ ((sortableFilteredOf grouped peopleList p st.sortable).length == 0) = true)] at h
    have hlen : 0 < (sortableFilteredOf grouped peopleList p st.sortable).length :=
      Nat.pos_of_ne_zero hz
    by_cases h1 : (sortableFilteredOf grouped peopleList p st.sortable).length = 1
    · rw [if_pos (by simp [h1] :
        ((sortableFilteredOf grouped peopleList p st.sortable).length == 1) = true)] at h
      cases hg : peopleList.get? 1 with
      | none => rw [hg] at h; simp at h
      | some p1 =>
        rw [hg] at h
        dsimp only at h
        by_cases hid : (p1.id == (sortableFilteredOf grouped peopleList p st.sortable).getD 0 0) = true
        · rw [if_pos hid] at h
          left; cases h; rfl
        · rw [if_neg hid] at h
          exact Or.inr (hpick hlen h)
    · rw [if_neg (by simp [h1] :
        ¬ ((sortableFilteredOf grouped peopleList p st.sortable).length == 1) = true)] at h
      exact Or.inr (hpick hlen h)

theorem stepPerson_keepTrying_mono (grouped : Bool) (peopleList : List EventPerson)
    (rng : Nat → Nat) (fuel : Nat) (st st2 : AttemptState) (p : EventPerson)
    (h : stepPerson grouped peopleList rng fuel st p = Except.ok st2)
    (hk : st.keepTrying = true) : st2.keepTrying = true := by
  rcases stepPerson_cases grouped peopleList rng fuel st st2 p h with h1 | ⟨cand, t2, _, _, h1⟩
  · rw [h1]
  · rw [h1]; simpa [pushMatch] using hk

theorem attemptLoop_keepTrying_mono (grouped : Bool) (peopleList : List EventPerson)
    (rng : Nat → Nat) (fuel : Nat) :
    ∀ (l : List EventPerson) (st st2 : AttemptState),
      attemptLoop grouped peopleList rng fuel l st = Except.ok st2 →
      st.keepTrying = true → st2.keepTrying = true := by
  intro l
  induction l with
  | nil => intro st st2 h hk; cases h; exact hk
  | cons p rest ih =>
    intro st st2 h hk
    simp only [attemptLoop] at h
    split at h
    · cases h
    · rename_i st1 hstep
      exact ih st1 st2 h (stepPerson_keepTrying_mono grouped peopleList rng fuel st st1 p hstep hk)

theorem filter_ne_perm (l : List Nat) (a : Nat) (ha : a ∈ l) (hnd : l.Nodup) :
    (a :: l.filter (fun x => x != a)).Perm l := by
  induction l with
  | nil => cases ha
  | cons b t ih =>
    rcases List.nodup_cons.mp hnd with ⟨hbt, hndt⟩
    rcases List.mem_cons.mp ha with hab | hat
    · subst hab
      have : t.filter (fun x => x != a) = t :=
        List.filter_eq_self.mpr (fun x hx => by
          simp only [bne_iff_ne, ne_eq, decide_eq_true_eq]
          intro hxa; exact hbt (hxa ▸ hx))
      simp [this]
    · have hba : b ≠ a := fun hb => hbt (hb ▸ hat)
      have hfil : (b :: t).filter (fun x => x != a) = b :: t.filter (fun x => x != a) := by
        simp [List.filter_cons, hba]
      rw [hfil]
      exact ((List.Perm.swap b a _).trans ((ih hat hndt).cons b))

theorem attemptLoop_success_spec (grouped : Bool) (peopleList : List EventPerson)
    (rng : Nat → Nat) (fuel : Nat) :
    ∀ (l : List EventPerson) (st st2 : AttemptState),
      attemptLoop grouped peopleList rng fuel l st = Except.ok st2 →
      st2.keepTrying = false →
      ∃ newPairs : List Pairing,
        st2.sortedList = st.sortedList ++ newPairs ∧
        newPairs.map Pairing.id = l.map EventPerson.id ∧
        (∀ pr ∈ newPairs, pr.id ≠ pr.matchId) ∧
        (st.sortable.Nodup → st2.sortable.Nodup ∧
          (st2.sortable ++ newPairs.map Pairing.matchId).Perm st.sortable) := by
  intro l
  induction l with
  | nil =>
    intro st st2 h hk
    cases h
    exact ⟨[], by simp, by simp, by simp, fun hnd => ⟨hnd, by simp⟩⟩
  | cons p rest ih =>
    intro st st2 h hk
    simp only [attemptLoop] at h
    split at h
    · cases h
    · rename_i st1 hstep
      rcases stepPerson_cases grouped peopleList rng fuel st st1 p hstep with
        hretry | ⟨cand, t2, hcmem, hcself, hpush⟩
      · exfalso
        have : st1.keepTrying = true := by rw [hretry]
        have := attemptLoop_keepTrying_mono grouped peopleList rng fuel rest st1 st2 h this
        rw [hk] at this
        cases this
      · rcases ih st1 st2 h hk with ⟨np1, hsl, hids, hself, hperm⟩
        refine ⟨{ id := p.id, matchId := cand } :: np1, ?_, ?_, ?_, ?_⟩
        · rw [hsl, hpush]; simp [pushMatch]
        · simp [hids]
        · intro pr hpr
          rcases List.mem_cons.mp hpr with hpr | hpr
          · rw [hpr]; exact fun hc => hcself (by simpa using hc.symm)
          · exact hself pr hpr
        · intro hnd
          have hcand_sortable : cand ∈ st.sortable :=
            sortableFilteredOf_subset grouped peopleList p st.sortable cand hcmem
          have hst1nd : st1.sortable.Nodup := by
            rw [hpush]; exact List.Nodup.filter _ hnd
          rcases hperm hst1nd with ⟨hnd2, hp2⟩
          refine ⟨hnd2, ?_⟩
          have hmid : (st2.sortable ++ ({ id := p.id, matchId := cand } :: np1).map Pairing.matchId).Perm
              (cand :: (st2.sortable ++ np1.map Pairing.matchId)) := by
            simp
          have hstep2 : (cand :: (st2.sortable ++ np1.map Pairing.matchId)).Perm
              (cand :: st1.sortable) := hp2.cons cand
          have hstep3 : (cand :: st1.sortable).Perm st.sortable := by
            rw [hpush]
            exact filter_ne_perm st.sortable cand hcand_sortable hnd
          exact (hmid.trans hstep2).trans hstep3

theorem attemptLoop_groupOk (peopleList : List EventPerson) (rng : Nat → Nat)
    (fuel : Nat) (hnd : (peopleList.map EventPerson.id).Nodup) :
    ∀ (l : List EventPerson) (st st2 : AttemptState),
      (∀ p ∈ l, p ∈ peopleList) →
      attemptLoop true peopleList rng fuel l st = Except.ok st2 →
      (∀ pr ∈ st.sortedList, GroupOk peopleList pr) →
      ∀ pr ∈ st2.sortedList, GroupOk peopleList pr := by
  intro l
  induction l with
  | nil => intro st st2 _ h hinv; cases h; exact hinv
  | cons p rest ih =>
    intro st st2 hsub h hinv
    simp only [attemptLoop] at h
    split at h
    · cases h
    · rename_i st1 hstep
      refine ih st1 st2 (fun q hq => hsub q (List.mem_cons_of_mem p hq)) h ?_
      rcases stepPerson_cases true peopleList rng fuel st st1 p hstep with
        hretry | ⟨cand, t2, hcmem, _hcself, hpush⟩
      · rw [hretry]; exact hinv
      · rw [hpush]
        simp only [pushMatch, List.mem_append, List.mem_singleton]
        intro pr hpr
        rcases hpr with hpr | hpr
        · exact hinv pr hpr
        · subst hpr
          intro pf hpf hpfid pm hpm hpmid
          have hp : p ∈ peopleList := hsub p (List.mem_cons_self p rest)
          have hfp : pf = p :=
            List.inj_on_of_nodup_map hnd hpf hp (by simpa using hpfid)
          unfold sortableFilteredOf at hcmem
          rw [if_pos rfl] at hcmem
          rcases List.mem_filter.mp hcmem with ⟨_, hpred⟩
          cases hfind : peopleList.find? (fun item => item.id == cand) with
          | none =>
            exfalso
            have := List.find?_eq_none.mp hfind pm hpm
            simp [hpmid] at this
          | some sp =>
            rw [hfind] at hpred
            simp only [bne_iff_ne, ne_eq, decide_eq_true_eq] at hpred
            have hspmem : sp ∈ peopleList := List.mem_of_find?_eq_some hfind
            have hspid : sp.id = cand := by
              have := List.find?_some hfind
              simpa using this
            have hpmsp : pm = sp :=
              List.inj_on_of_nodup_map hnd hpm hspmem (by simp [hpmid, hspid])
            rw [hfp, hpmsp]
            exact hpred

theorem drawLoop_not_keepTrying (grouped : Bool) (peopleList : List EventPerson)
    (rng : Nat → Nat) (fuel : Nat) (rem attempts t : Nat) (sl : List Pairing) :
    drawLoop grouped peopleList rng fuel rem attempts false t sl =
      Except.ok (attempts, false, sl) := by
  cases rem with
  | zero => rfl
  | succ m => simp [drawLoop]

theorem drawLoop_success_attempt (grouped : Bool) (peopleList : List EventPerson)
    (rng : Nat → Nat) (fuel : Nat) :
    ∀ (rem attempts t : Nat) (sl : List Pairing)
      (res : Nat × Bool × List Pairing),
      drawLoop grouped peopleList rng fuel rem attempts true t sl = Except.ok res →
      res.1 < attempts + rem →
      ∃ t0 st, runAttempt grouped peopleList rng fuel t0 = Except.ok st ∧
        st.keepTrying = false ∧ res.2.2 = st.sortedList := by
  intro rem
  induction rem with
  | zero =>
    intro attempts t sl res h hlt
    simp only [drawLoop] at h
    cases h
    simp at hlt
  | succ m ih =>
    intro attempts t sl res h hlt
    simp only [drawLoop, if_true] at h
    cases hatt : runAttempt grouped peopleList rng fuel t with
    | error e => rw [hatt] at h; cases h
    | ok st =>
      rw [hatt] at h
      dsimp only at h
      cases hkt : st.keepTrying with
      | false =>
        rw [hkt, drawLoop_not_keepTrying] at h
        cases h
        exact ⟨t, st, hatt, hkt, rfl⟩
      | true =>
        rw [hkt] at h
        exact ih (attempts + 1) st.t st.sortedList res h (by omega)

theorem draw_success_attempt (grouped : Bool) (peopleList : List EventPerson)
    (rng : Nat → Nat) (writeOk : Nat → String → Bool) (fuel : Nat)
    (out : DrawOutcome)
    (h : draw (some grouped) peopleList rng writeOk fuel = Except.ok out)
    (hres : out.result = true) :
    ∃ t0 st, runAttempt grouped peopleList rng fuel t0 = Except.ok st ∧
      st.keepTrying = false ∧ out.pairs = st.sortedList := by
  simp only [draw] at h
  cases hloop : drawLoop grouped peopleList rng fuel peopleList.length 0 true 0 [] with
  | error e => rw [hloop] at h; cases h
  | ok res =>
    obtain ⟨attempts, kt, sl⟩ := res
    rw [hloop] at h
    dsimp only at h
    by_cases hlt : attempts < peopleList.length
    · rw [if_pos hlt] at h
      cases h
      rcases drawLoop_success_attempt grouped peopleList rng fuel
        peopleList.length 0 0 [] (attempts, kt, sl) hloop (by simpa using hlt) with
        ⟨t0, st, hatt, hkt, hsl⟩
      exact ⟨t0, st, hatt, hkt, hsl⟩
    · rw [if_neg hlt] at h
      cases h
      simp at hres

theorem stepPerson_all_same_group (peopleList : List EventPerson) (rng : Nat → Nat)
    (fuel : Nat) (gId : Nat) (hall : ∀ q ∈ peopleList, q.groupId = gId)
    (st : AttemptState) (p : EventPerson) (hp : p ∈ peopleList)
    (hso : st.sortable = peopleList.map EventPerson.id) :
    stepPerson true peopleList rng fuel st p = Except.ok { st with keepTrying := true } := by
  have hsf : sortableFilteredOf true peopleList p st.sortable = [] := by
    unfold sortableFilteredOf
    rw [if_pos rfl]
    apply List.filter_eq_nil_iff.mpr
    intro item hitem
    rw [hso] at hitem
    rcases List.mem_map.mp hitem with ⟨q, hq, hqid⟩
    cases hfind : peopleList.find? (fun x => x.id == item) with
    | none =>
      exfalso
      have := List.find?_eq_none.mp hfind q hq
      simp [hqid] at this
    | some sp =>
      have hspmem : sp ∈ peopleList := List.mem_of_find?_eq_some hfind
      simp [hall p hp, hall sp hspmem]
  simp [stepPerson, hsf]

theorem attemptLoop_all_same_group (peopleList : List EventPerson) (rng : Nat → Nat)
    (fuel : Nat) (gId : Nat) (hall : ∀ q ∈ peopleList, q.groupId = gId) :
    ∀ (l : List EventPerson) (st : AttemptState),
      (∀ p ∈ l, p ∈ peopleList) →
      st.sortable = peopleList.map EventPerson.id →
      attemptLoop true peopleList rng fuel l st =
        Except.ok { st with keepTrying := st.keepTrying || !l.isEmpty } := by
  intro l
  induction l with
  | nil =>
    intro st _ _
    simp only [attemptLoop, List.isEmpty_nil, Bool.not_true, Bool.or_false]
  | cons p rest ih =>
    intro st hsub hso
    have hstep := stepPerson_all_same_group peopleList rng fuel gId hall st p
      (hsub p (List.mem_cons_self p rest)) hso
    simp only [attemptLoop, hstep]
    have := ih { st with keepTrying := true }
      (fun q hq => hsub q (List.mem_cons_of_mem p hq)) hso
    rw [this]
    simp

theorem drawLoop_all_same_group (peopleList : List EventPerson) (rng : Nat → Nat)
    (fuel : Nat) (gId : Nat) (hall : ∀ q ∈ peopleList, q.groupId = gId)
    (hne : peopleList ≠ []) :
    ∀ (rem attempts t : Nat),
      drawLoop true peopleList rng fuel rem attempts true t [] =
        Except.ok (attempts + rem, true, []) := by
  intro rem
  induction rem with
  | zero => intro attempts t; simp [drawLoop]
  | succ m ih =>
    intro attempts t
    have hatt : runAttempt true peopleList rng fuel t =
        Except.ok { sortedList := [], sortable := peopleList.map EventPerson.id,
                    keepTrying := true, t := t } := by
      unfold runAttempt
      rw [attemptLoop_all_same_group peopleList rng fuel gId hall peopleList _
        (fun p hp => hp) rfl]
      simp [List.isEmpty_iff, hne]
    simp only [drawLoop, if_true, hatt]
    rw [ih (attempts + 1) t]
    have harith : attempts + 1 + m = attempts + (m + 1) := by omega
    rw [harith]

theorem digitsAux_lt_ten : ∀ (fuel n : Nat), ∀ d ∈ digitsAux fuel n, d < 10 := by
  intro fuel
  induction fuel with
  | zero =>
    intro n d hd
    cases n with
    | zero => simp [digitsAux] at hd
    | succ m => simp [digitsAux] at hd
  | succ f ih =>
    intro n d hd
    cases n with
    | zero => simp [digitsAux] at hd
    | succ m =>
      simp only [digitsAux, List.mem_cons] at hd
      rcases hd with hd | hd
      · rw [hd]; exact Nat.mod_lt _ (by omega)
      · exact ih _ d hd

theorem natOfDigits_digitsAux : ∀ (fuel n : Nat), n ≤ fuel →
    natOfDigits (digitsAux fuel n) = n := by
  intro fuel
  induction fuel with
  | zero =>
    intro n hn
    have : n = 0 := Nat.le_zero.mp hn
    rw [this]
    rfl
  | succ f ih =>
    intro n hn
    cases n with
    | zero => rfl
    | succ m =>
      have hdiv : (m + 1) / 10 ≤ f := by
        have := Nat.div_lt_self (Nat.succ_pos m) (by omega : 1 < 10)
        omega
      simp only [digitsAux, natOfDigits]
      rw [ih _ hdiv]
      exact Nat.mod_add_div _ _

theorem decChar_encChar (d : Nat) (hd : d < 10) : decChar (encChar d) = some d := by
  interval_cases d <;> rfl

theorem decChars_map_encChar : ∀ (ds : List Nat), (∀ d ∈ ds, d < 10) →
    decChars (ds.map encChar) = some ds := by
  intro ds
  induction ds with
  | nil => intro _; rfl
  | cons d rest ih =>
    intro hall
    simp only [List.map_cons, decChars]
    rw [decChar_encChar d (hall d (List.mem_cons_self d rest)),
      ih (fun x hx => hall x (List.mem_cons_of_mem d hx))]

/-! ## Claim theorems -/

/-- C1: for every roster of size N >= 2 drawn with the grouped flag
false and unique ids, every successful run of `draw` (result true)
produces exactly N pairings, the from ids are exactly the roster ids,
the to ids are a permutation of the roster ids, and no pairing matches
a person with themselves. -/
theorem draw_ungrouped_bijection (peopleList : List EventPerson) (rng : Nat → Nat)
    (writeOk : Nat → String → Bool) (fuel : Nat) (out : DrawOutcome)
    (_hN : 2 ≤ peopleList.length)
    (hnd : (peopleList.map EventPerson.id).Nodup)
    (h : draw (some false) peopleList rng writeOk fuel = Except.ok out)
    (hres : out.result = true) :
    out.pairs.length = peopleList.length ∧
    out.pairs.map Pairing.id = peopleList.map EventPerson.id ∧
    (out.pairs.map Pairing.matchId).Perm (peopleList.map EventPerson.id) ∧
    ∀ pr ∈ out.pairs, pr.id ≠ pr.matchId := by
  rcases draw_success_attempt false peopleList rng writeOk fuel out h hres with
    ⟨t0, st, hatt, hkt, hpairs⟩
  unfold runAttempt at hatt
  rcases attemptLoop_success_spec false peopleList rng fuel peopleList _ st hatt hkt with
    ⟨np, hsl, hids, hself, hperm⟩
  simp only [List.nil_append] at hsl
  have hndinit : (peopleList.map (fun person => person.id)).Nodup := by
    simpa using hnd
  rcases hperm hndinit with ⟨hnd2, hp⟩
  have hnp_len : np.length = peopleList.length := by
    have := congrArg List.length hids
    simpa using this
  have hsort_len : st.sortable.length = 0 := by
    have hlen := hp.length_eq
    simp only [List.length_append, List.length_map] at hlen
    omega
  have hsort_nil : st.sortable = [] := List.eq_nil_of_length_eq_zero hsort_len
  rw [hsort_nil, List.nil_append] at hp
  refine ⟨?_, ?_, ?_, ?_⟩
  · rw [hpairs, hsl, hnp_len]
  · rw [hpairs, hsl, hids]
  · rw [hpairs, hsl]
    simpa using hp
  · rw [hpairs, hsl]
    exact hself

/-- C1 witness: the successful ungrouped draw on the two-person roster
[1, 2] with the constant stream 1 yields the pairings 1 to 2 and 2 to 1,
which satisfy every conclusion of `draw_ungrouped_bijection`. -/
theorem draw_ungrouped_bijection_witness :
    ((⟨true, [⟨1, 2⟩, ⟨2, 1⟩], [(1, encrypt 2, true), (2, encrypt 1, true)]⟩ :
        DrawOutcome).pairs.length = ([⟨1, 0⟩, ⟨2, 0⟩] : List EventPerson).length) ∧
    ((⟨true, [⟨1, 2⟩, ⟨2, 1⟩], [(1, encrypt 2, true), (2, encrypt 1, true)]⟩ :
        DrawOutcome).pairs.map Pairing.id =
      ([⟨1, 0⟩, ⟨2, 0⟩] : List EventPerson).map EventPerson.id) ∧
    (((⟨true, [⟨1, 2⟩, ⟨2, 1⟩], [(1, encrypt 2, true), (2, encrypt 1, true)]⟩ :
        DrawOutcome).pairs.map Pairing.matchId).Perm
      (([⟨1, 0⟩, ⟨2, 0⟩] : List EventPerson).map EventPerson.id)) ∧
    ∀ pr ∈ (⟨true, [⟨1, 2⟩, ⟨2, 1⟩], [(1, encrypt 2, true), (2, encrypt 1, true)]⟩ :
        DrawOutcome).pairs, pr.id ≠ pr.matchId :=
  draw_ungrouped_bijection [⟨1, 0⟩, ⟨2, 0⟩] (fun _ => 1) (fun _ _ => true) 3 _
    (by decide) (by decide) rfl rfl

/-- C2: for every roster with unique ids drawn with the grouped flag
true, every pairing of a successful run of `draw` joins participants of
different groups. -/
theorem draw_group_exclusion (peopleList : List EventPerson) (rng : Nat → Nat)
    (writeOk : Nat → String → Bool) (fuel : Nat) (out : DrawOutcome)
    (hnd : (peopleList.map EventPerson.id).Nodup)
    (h : draw (some true) peopleList rng writeOk fuel = Except.ok out)
    (hres : out.result = true) :
    ∀ pr ∈ out.pairs, GroupOk peopleList pr := by
  rcases draw_success_attempt true peopleList rng writeOk fuel out h hres with
    ⟨t0, st, hatt, _hkt, hpairs⟩
  unfold runAttempt at hatt
  have := attemptLoop_groupOk peopleList rng fuel hnd peopleList _ st
    (fun p hp => hp) hatt (by simp)
  rw [hpairs]
  exact this

/-- C2 witness: the successful grouped draw on the spec scenario roster
of four people in two groups, with stream [0, 0, 1, 0], yields pairings
1 to 3, 2 to 4, 3 to 2, 4 to 1, all of which cross groups. -/
theorem draw_group_exclusion_witness :
    (([⟨1, 1⟩, ⟨2, 1⟩, ⟨3, 2⟩, ⟨4, 2⟩] : List EventPerson).map EventPerson.id).Nodup ∧
    ∀ pr ∈ (⟨true, [⟨1, 3⟩, ⟨2, 4⟩, ⟨3, 2⟩, ⟨4, 1⟩],
        [(1, encrypt 3, true), (2, encrypt 4, true), (3, encrypt 2, true),
          (4, encrypt 1, true)]⟩ : DrawOutcome).pairs,
      GroupOk [⟨1, 1⟩, ⟨2, 1⟩, ⟨3, 2⟩, ⟨4, 2⟩] pr :=
  ⟨by decide,
    draw_group_exclusion [⟨1, 1⟩, ⟨2, 1⟩, ⟨3, 2⟩, ⟨4, 2⟩] (fun t => [0, 0, 1, 0].getD t 0)
      (fun _ _ => true) 3 _ (by decide) (by rfl) rfl⟩

/-- C3: the claim states that the inner resample loop always terminates
because the eligible-subset check just before it guards the
only-self-remains case.  It does not: the source guard (line 160)
compares against `peopleList[1].id` instead of `peopleList[i].id`, so on
the ungrouped roster [1, 2, 3] with a stream whose first two picks are
index 1 then index 0, the third person is left with only their own id
as candidate, the guard does not fire (2 is not 3), and the resample
loop never terminates: the run ends in `noFuel` for every fuel bound. -/
theorem draw_resample_guard_broken_diverges : ∀ fuel : Nat,
    draw (some false) [⟨1, 10⟩, ⟨2, 20⟩, ⟨3, 30⟩] (fun t => [1, 0].getD t 0)
      (fun _ _ => true) fuel = Except.error DrawErr.noFuel := by
  intro fuel
  cases fuel with
  | zero => rfl
  | succ m =>
    simp [draw, drawLoop, runAttempt, attemptLoop, stepPerson, pickMatch,
      sortableFilteredOf, resample, resample_self, pushMatch, List.getD]

/-- C4: the claim states that whenever one of the N attempts succeeds,
`draw` returns the successful result.  The success check on line 188 is
`attempts < maxAttempts`, so a success on the Nth (last) attempt is
discarded: on the ungrouped roster [1, 2, 3] with stream
[2, 0, 2, 0, 1, 1] attempts 1 and 2 fail, attempt 3 succeeds (second
conjunct: the attempt starting at stream position 4 completes all three
pairings with keepTrying false), yet `draw` returns false and persists
nothing. -/
theorem draw_last_attempt_success_discarded :
    draw (some false) [⟨1, 0⟩, ⟨2, 0⟩, ⟨3, 0⟩] (fun t => [2, 0, 2, 0, 1, 1].getD t 0)
      (fun _ _ => true) 2 = Except.ok { result := false, pairs := [], writes := [] } ∧
    runAttempt false [⟨1, 0⟩, ⟨2, 0⟩, ⟨3, 0⟩] (fun t => [2, 0, 2, 0, 1, 1].getD t 0) 2 4 =
      Except.ok (⟨[⟨1, 2⟩, ⟨2, 3⟩, ⟨3, 1⟩], [], false, 7⟩ : AttemptState) :=
  ⟨rfl, rfl⟩

/-- C5: the claim states that a roster of size at most 1 yields an
immediate false without raising.  On the ungrouped singleton roster the
eligible subset has length 1, so the guard evaluates `peopleList[1].id`,
and `peopleList[1]` is undefined: the run raises a TypeError instead of
returning false. -/
theorem draw_singleton_roster_type_error :
    draw (some false) [⟨1, 0⟩] (fun _ => 0) (fun _ _ => true) 2 =
      Except.error DrawErr.typeError := rfl

/-- C6: for every roster whose participants all share one groupId,
drawn with the grouped flag true, `draw` terminates (the result is the
same for every fuel bound, including zero, so the inner loop is never
even entered) after its N-attempt budget and returns false with no
writes. -/
theorem draw_single_group_always_fails (peopleList : List EventPerson) (gId : Nat)
    (rng : Nat → Nat) (writeOk : Nat → String → Bool) (fuel : Nat)
    (hall : ∀ p ∈ peopleList, p.groupId = gId) :
    draw (some true) peopleList rng writeOk fuel =
      Except.ok { result := false, pairs := [], writes := [] } := by
  cases peopleList with
  | nil => rfl
  | cons p rest =>
    have hall2 : ∀ q ∈ p :: rest, q.groupId = gId := hall
    simp only [draw]
    rw [drawLoop_all_same_group (p :: rest) rng fuel gId hall2 (by simp)
      (p :: rest).length 0 0]
    dsimp only
    rw [if_neg (by omega : ¬ (0 + (p :: rest).length < (p :: rest).length))]

/-- C6 witness: a two-person roster entirely in group 5 with the
grouped flag yields false with fuel 0 (so without ever sampling). -/
theorem draw_single_group_always_fails_witness :
    draw (some true) [⟨1, 5⟩, ⟨2, 5⟩] (fun _ => 0) (fun _ _ => true) 0 =
      Except.ok { result := false, pairs := [], writes := [] } :=
  draw_single_group_always_fails [⟨1, 5⟩, ⟨2, 5⟩] 5 (fun _ => 0) (fun _ _ => true) 0
    (by decide)

/-- C7: whenever `draw` returns false (event missing, or the attempt
budget exhausted), it has issued no updatePeople write. -/
theorem draw_failure_writes_nothing (event : Option Bool) (peopleList : List EventPerson)
    (rng : Nat → Nat) (writeOk : Nat → String → Bool) (fuel : Nat) (out : DrawOutcome)
    (h : draw event peopleList rng writeOk fuel = Except.ok out)
    (hres : out.result = false) : out.writes = [] := by
  cases event with
  | none => cases h; rfl
  | some grouped =>
    simp only [draw] at h
    cases hloop : drawLoop grouped peopleList rng fuel peopleList.length 0 true 0 [] with
    | error e => rw [hloop] at h; cases h
    | ok res =>
      obtain ⟨attempts, kt, sl⟩ := res
      rw [hloop] at h
      dsimp only at h
      by_cases hlt : attempts < peopleList.length
      · rw [if_pos hlt] at h; cases h; simp at hres
      · rw [if_neg hlt] at h; cases h; rfl

/-- C7 witness: a run with a missing event returns false and its write
list is empty. -/
theorem draw_failure_writes_nothing_witness :
    (draw none [] (fun _ => 0) (fun _ _ => true) 0 =
      Except.ok { result := false, pairs := [], writes := [] }) ∧
    ({ result := false, pairs := [], writes := [] } : DrawOutcome).writes = [] :=
  ⟨rfl, draw_failure_writes_nothing none [] (fun _ => 0) (fun _ _ => true) 0 _ rfl rfl⟩

/-- C8 counterexample: the claim states that a failing per-pairing
updatePeople write makes `draw` return false.  On the two-person
ungrouped roster with a persistence oracle that fails every write, both
writes are recorded as failed yet `draw` still returns true. -/
theorem draw_write_failure_still_reports_success :
    draw (some false) [⟨1, 0⟩, ⟨2, 0⟩] (fun _ => 1) (fun _ _ => false) 3 =
      Except.ok
        { result := true
          pairs := [⟨1, 2⟩, ⟨2, 1⟩]
          writes := [(1, encrypt 2, false), (2, encrypt 1, false)] } := rfl

/-- C8 amended: updatePeople swallows its errors (returning false) and
`draw` ignores its return value, so the boolean result of `draw` is the
same under every persistence oracle: write failures never change the
reported outcome. -/
theorem draw_result_independent_of_write_results (event : Option Bool)
    (peopleList : List EventPerson) (rng : Nat → Nat)
    (w1 w2 : Nat → String → Bool) (fuel : Nat) :
    Except.map DrawOutcome.result (draw event peopleList rng w1 fuel) =
      Except.map DrawOutcome.result (draw event peopleList rng w2 fuel) := by
  cases event with
  | none => rfl
  | some grouped =>
    simp only [draw]
    cases drawLoop grouped peopleList rng fuel peopleList.length 0 true 0 [] with
    | error e => rfl
    | ok res =>
      obtain ⟨attempts, kt, sl⟩ := res
      dsimp only
      by_cases hlt : attempts < peopleList.length
      · rw [if_pos hlt, if_pos hlt]; rfl
      · rw [if_neg hlt, if_neg hlt]

/-- C9: the obfuscation codec satisfies the round-trip law: decoding an
encoded participant id returns exactly that id, for every id. -/
theorem decrypt_encrypt_roundtrip (x : Nat) : decrypt (encrypt x) = some x := by
  unfold encrypt decrypt
  rw [show (String.mk ((natDigits x).map encChar)).data = (natDigits x).map encChar from rfl]
  rw [decChars_map_encChar (natDigits x) (digitsAux_lt_ten x x)]
  show some (natOfDigits (digitsAux x x)) = some x
  rw [natOfDigits_digitsAux x x le_rfl]

/-- C10: for every DEFAULT_TOKEN value and every current date, the
token produced by createToken is accepted by validadeToken, and
validatePassword accepts exactly the current date with slashes
removed. -/
theorem auth_token_roundtrip (defaultToken currentDate password : String) :
    validadeToken defaultToken currentDate (createToken defaultToken currentDate) = true ∧
    (validatePassword currentDate password = true ↔ password = removeSlashes currentDate) := by
  constructor
  · simp [validadeToken]
  · simp [validatePassword]
